import Mathlib

/-!
Shallow embedding of the department/employee consistency core of the
API_test repository (`src/app/services/department.py`, the SQLAlchemy
models in `src/app/models/` and the pydantic schemas in
`src/app/schemas/`).

The relational store is modelled as lists of rows.  Each service function
is a pure function from a store to `Except Err (new store)`; the single
`db.commit()` at the end of every mutating service function is modelled by
`commitDepts`, which validates the declared uniqueness constraints of the
`departments` table (the composite `UniqueConstraint("name", "parent_id")`
of `models/department.py` together with the partial unique index
`uq_departments_name_root` on root names from the alembic migration) and,
on violation, discards the pending writes — the transaction is rolled
back, so an error leaves the committed store unchanged.
-/

/-- Row of the `departments` table (`app/models/department.py`).
`created_at` is an abstract timestamp. -/
structure Dept where
  id : Nat
  name : String
  parent_id : Option Nat
  created_at : Nat
deriving DecidableEq

/-- Row of the `employees` table (`app/models/employee.py`). -/
structure Emp where
  id : Nat
  department_id : Nat
  full_name : String
  position : String
  hired_at : Option Nat
  created_at : Nat
deriving DecidableEq

/-- The relational store: both tables plus the id sequences and a clock
supplying `created_at` timestamps. -/
structure Store where
  depts : List Dept
  emps : List Emp
  nextDeptId : Nat
  nextEmpId : Nat
  clock : Nat
deriving DecidableEq

/-- The empty database, as created by the migration. -/
def Store.empty : Store := ⟨[], [], 1, 1, 0⟩

/-- Error taxonomy of the service layer: `DepartmentNotFoundError`,
`ConflictError` and `ValueError` (caller-input error). -/
inductive Err where
  | notFound
  | conflict
  | callerInput
deriving DecidableEq

/-- `DepartmentCreate` schema (name already validated/trimmed upstream). -/
structure DepartmentCreate where
  name : String
  parent_id : Option Nat

/-- `EmployeeCreate` schema. -/
structure EmployeeCreate where
  full_name : String
  position : String
  hired_at : Option Nat

/-- `DepartmentUpdate` schema as seen by the service: pydantic has already
collapsed an omitted field, an explicit `null` and a whitespace-only name
into `None`. -/
structure DepartmentUpdate where
  name : Option String
  parent_id : Option Nat
deriving DecidableEq

/-- A raw PATCH body, before pydantic validation: the outer `Option`
records whether the field is present in the JSON object, the inner one its
value (`none` = JSON `null`). -/
structure RawDepartmentUpdate where
  name : Option (Option String)
  parent_id : Option (Option Nat)

/-- Python `str.strip()`: drop leading and trailing whitespace (modelled
structurally on the character list). -/
def pyStrip (s : String) : String :=
  ⟨((s.data.dropWhile Char.isWhitespace).reverse.dropWhile Char.isWhitespace).reverse⟩

/-- Pydantic validation of `DepartmentUpdate`
(`app/schemas/department.py`): an absent field and an explicit `null`
both parse to `None`; the `trim_name` validator strips the name and turns
a whitespace-only string into `None` as well (`v.strip() or None`). -/
def parseDepartmentUpdate (raw : RawDepartmentUpdate) : DepartmentUpdate :=
  { name :=
      match raw.name with
      | none => none
      | some none => none
      | some (some s) => if pyStrip s = "" then none else some (pyStrip s)
    parent_id :=
      match raw.parent_id with
      | none => none
      | some v => v }

/-- `_get_department`: primary-key lookup (`db.get(Department, id)`). -/
def get_department (s : Store) (department_id : Nat) : Option Dept :=
  s.depts.find? (fun d => d.id == department_id)

/-- The uniqueness constraints declared on the `departments` table:
no two rows share the same `(name, parent_id)` pair.  The non-null case is
the composite `UniqueConstraint("name", "parent_id")`; the null case is the
partial unique index on root names. -/
def deptConstraintsOk : List Dept → Bool
  | [] => true
  | d :: rest =>
      rest.all (fun d2 => !(d.name == d2.name && d.parent_id == d2.parent_id)) &&
      deptConstraintsOk rest

/-- `db.commit()`: validates the store-level constraints of the
`departments` table; on violation the transaction rolls back (the pending
state is discarded and the error surfaces as a store-level conflict). -/
def commitDepts (s : Store) : Except Err Store :=
  if deptConstraintsOk s.depts then .ok s else .error .conflict

/-- Ids of the rows whose `parent_id` equals `p` (the `children`
relation). -/
def childIdsOf (ds : List Dept) (p : Nat) : List Nat :=
  (ds.filter (fun d => d.parent_id == some p)).map (fun d => d.id)

/-- Work-list loop of `_get_descendant_ids`.  The fuel bounds the number
of pops; on an acyclic store every department enters the stack at most
once, so `ds.length + 1` pops drain the work list exactly as the Python
`while stack:` loop does. -/
def descendantsAux (ds : List Dept) : Nat → List Nat → List Nat → List Nat
  | 0, _, result => result
  | _ + 1, [], result => result
  | fuel + 1, current :: stack, result =>
      let rows := childIdsOf ds current
      descendantsAux ds fuel (rows ++ stack)
        (rows.foldl (fun acc i => if acc.contains i then acc else acc ++ [i]) result)

/-- `_get_descendant_ids`: set of all descendant department ids computed
by iterative traversal of the children relation. -/
def get_descendant_ids (s : Store) (department_id : Nat) : List Nat :=
  descendantsAux s.depts (s.depts.length + 1) [department_id] []

/-- `_check_name_unique_under_parent`, as a predicate: `true` iff a row
with this `(name, parent_id)` exists (excluding `exclude_department_id`),
i.e. iff the Python helper raises `ConflictError`. -/
def check_name_unique_under_parent (s : Store) (name : String)
    (parent_id : Option Nat) (exclude_department_id : Option Nat) : Bool :=
  s.depts.any (fun d =>
    d.name == name && d.parent_id == parent_id &&
      (match exclude_department_id with
       | none => true
       | some ex => d.id != ex))

/-- The fresh `departments` row built by `create_department` (id from the
sequence, timestamp from the clock). -/
def create_dept_row (s : Store) (data : DepartmentCreate) : Dept :=
  ⟨s.nextDeptId, data.name, data.parent_id, s.clock⟩

/-- Pending state after `db.add(department)` in `create_department`. -/
def insert_department_store (s : Store) (data : DepartmentCreate) : Store :=
  { s with depts := s.depts ++ [create_dept_row s data],
           nextDeptId := s.nextDeptId + 1, clock := s.clock + 1 }

/-- Tail of `create_department` after the parent check: uniqueness check,
insert, commit. -/
def insert_department (s : Store) (data : DepartmentCreate) :
    Except Err (Store × Dept) :=
  if check_name_unique_under_parent s data.name data.parent_id none then
    .error .conflict
  else
    match commitDepts (insert_department_store s data) with
    | .ok s2 => .ok (s2, create_dept_row s data)
    | .error e => .error e

/-- `create_department`: validates that the parent exists and that the
name is unique under the parent, then inserts. -/
def create_department (s : Store) (data : DepartmentCreate) :
    Except Err (Store × Dept) :=
  match data.parent_id with
  | some pid =>
      if (get_department s pid).isNone then .error .notFound
      else insert_department s data
  | none => insert_department s data

/-- `create_employee`: fails if the department does not exist, otherwise
inserts the employee. -/
def create_employee (s : Store) (department_id : Nat) (data : EmployeeCreate) :
    Except Err (Store × Emp) :=
  match get_department s department_id with
  | none => .error .notFound
  | some _ =>
      let employee : Emp :=
        ⟨s.nextEmpId, department_id, data.full_name, data.position,
         data.hired_at, s.clock⟩
      match commitDepts { s with emps := s.emps ++ [employee],
                                 nextEmpId := s.nextEmpId + 1, clock := s.clock + 1 } with
      | .ok s2 => .ok (s2, employee)
      | .error e => .error e

/-- Pending state after `department.name = ...; department.parent_id = ...`
in `update_department`: the SQL UPDATE rewrites the row with this id. -/
def update_store (s : Store) (department_id : Nat) (new_name : String)
    (new_parent_id : Option Nat) : Store :=
  { s with depts := s.depts.map (fun d =>
      if d.id == department_id then
        { d with name := new_name, parent_id := new_parent_id }
      else d) }

/-- Tail of `update_department` after the parent validations: name
uniqueness check (excluding the department itself), mutation, commit,
refresh. -/
def update_apply (s : Store) (department : Dept) (new_name : String)
    (new_parent_id : Option Nat) : Except Err (Store × Dept) :=
  if check_name_unique_under_parent s new_name new_parent_id (some department.id) then
    .error .conflict
  else
    match commitDepts (update_store s department.id new_name new_parent_id) with
    | .ok s2 => .ok (s2, { department with name := new_name, parent_id := new_parent_id })
    | .error e => .error e

/-- `update_department`: effective name/parent default to the current row
values when the parsed field is `None`; validates no self-parenting, no
move into the own subtree, parent existence, name uniqueness. -/
def update_department (s : Store) (department_id : Nat)
    (data : DepartmentUpdate) : Except Err (Store × Dept) :=
  match get_department s department_id with
  | none => .error .notFound
  | some department =>
      let new_parent_id :=
        match data.parent_id with
        | some p => some p
        | none => department.parent_id
      let new_name :=
        match data.name with
        | some n => n
        | none => department.name
      if new_parent_id == some department_id then .error .conflict
      else
        match new_parent_id with
        | some p =>
            if (get_descendant_ids s department_id).contains p then .error .conflict
            else if (get_department s p).isNone then .error .notFound
            else update_apply s department new_name new_parent_id
        | none => update_apply s department new_name new_parent_id

/-- One pass of the downward closure: append (deduplicated) the ids of all
rows whose parent already lies in the accumulated set. -/
def subtreeStep (ds : List Dept) (acc : List Nat) : List Nat :=
  acc ++ ((ds.filter (fun d =>
      (match d.parent_id with
       | some p => acc.contains p
       | none => false) && !acc.contains d.id)).map (fun d => d.id)).dedup

/-- Downward closure of a department id under the `children` relation:
the set of rows removed by the ORM-level `cascade="all, delete-orphan"`
when the root row is deleted.  `ds.length + 1` passes always reach the
fixed point. -/
def subtreeIds (ds : List Dept) (root : Nat) : List Nat :=
  (subtreeStep ds)^[ds.length + 1] [root]

/-- Pending state of the cascade branch of `delete_department`:
`db.delete(department)` removes, via the ORM `cascade="all, delete-orphan"`
relationships, the downward closure of the department and every employee
belonging to a removed department (the store-level FK `ondelete` rules back
the same behaviour). -/
def cascade_store (s : Store) (department_id : Nat) : Store :=
  { s with
    depts := s.depts.filter (fun d =>
      !(subtreeIds s.depts department_id).contains d.id),
    emps := s.emps.filter (fun e =>
      !(subtreeIds s.depts department_id).contains e.department_id) }

/-- Pending state of the reassign branch of `delete_department`: the two
bulk UPDATEs relink direct employees and direct children to the target,
then the department row is deleted. -/
def reassign_store (s : Store) (department_id target_id : Nat) : Store :=
  { s with
    emps := s.emps.map (fun e =>
      if e.department_id == department_id then
        { e with department_id := target_id }
      else e),
    depts := (s.depts.map (fun d =>
        if d.parent_id == some department_id then
          { d with parent_id := some target_id }
        else d)).filter (fun d => !(d.id == department_id)) }

/-- `delete_department`: cascade removes the downward closure and its
employees; reassign relinks direct employees and direct children to the
target and removes the single row; any other mode is a caller-input
error (`ValueError`). -/
def delete_department (s : Store) (department_id : Nat) (mode : String)
    (reassign_to_department_id : Option Nat) : Except Err Store :=
  match get_department s department_id with
  | none => .error .notFound
  | some _ =>
      if mode = "cascade" then
        commitDepts (cascade_store s department_id)
      else if mode = "reassign" then
        match reassign_to_department_id with
        | none => .error .callerInput
        | some target_id =>
            if (get_department s target_id).isNone then .error .notFound
            else if target_id == department_id then .error .conflict
            else commitDepts (reassign_store s department_id target_id)
      else .error .callerInput

/-- Lexicographic "sort key" order: primary key plus id tiebreak, both
ascending. -/
def lexRel {α β : Type} [LinearOrder β] (k : α → β) (i : α → Nat)
    (a b : α) : Prop :=
  k a < k b ∨ (k a = k b ∧ i a ≤ i b)

instance {α β : Type} [LinearOrder β] (k : α → β) (i : α → Nat) :
    DecidableRel (lexRel k i) := fun a b => by
  unfold lexRel; infer_instance

instance {α β : Type} [LinearOrder β] (k : α → β) (i : α → Nat) :
    IsTotal α (lexRel k i) := by
  constructor
  intro a b
  rcases lt_trichotomy (k a) (k b) with h | h | h
  · exact Or.inl (Or.inl h)
  · rcases Nat.le_total (i a) (i b) with h2 | h2
    · exact Or.inl (Or.inr ⟨h, h2⟩)
    · exact Or.inr (Or.inr ⟨h.symm, h2⟩)
  · exact Or.inr (Or.inl h)

instance {α β : Type} [LinearOrder β] (k : α → β) (i : α → Nat) :
    IsTrans α (lexRel k i) := by
  constructor
  rintro a b c (h1 | ⟨h1, h1i⟩) (h2 | ⟨h2, h2i⟩)
  · exact Or.inl (h1.trans h2)
  · exact Or.inl (h2 ▸ h1)
  · exact Or.inl (h1 ▸ h2)
  · exact Or.inr ⟨h1.trans h2, h1i.trans h2i⟩

/-- Employee sort key `(full_name, id)`. -/
abbrev empRelFullName : Emp → Emp → Prop := lexRel Emp.full_name Emp.id

/-- Employee sort key `(created_at, id)`. -/
abbrev empRelCreated : Emp → Emp → Prop := lexRel Emp.created_at Emp.id

/-- Child ordering key `(name, id)`. -/
abbrev deptRel : Dept → Dept → Prop := lexRel Dept.name Dept.id

/-- Direct employees of a department, sorted by the requested key
(`emps.sort(key=...)` in `_build_tree`; a stable sort by an injective
key). -/
def direct_employees (s : Store) (sort_employees_by : String)
    (dept_id : Nat) : List Emp :=
  let emps := s.emps.filter (fun e => e.department_id == dept_id)
  if sort_employees_by = "full_name" then emps.insertionSort empRelFullName
  else emps.insertionSort empRelCreated

/-- `DepartmentTreeResponse`: a department with its employee views and
child subtrees. -/
inductive TreeView where
  | node (department : Dept) (employees : List Emp) (children : List TreeView)

/-- Department at the root of a tree view. -/
def TreeView.department : TreeView → Dept
  | .node d _ _ => d

/-- Employee list of the root node. -/
def TreeView.employees : TreeView → List Emp
  | .node _ e _ => e

/-- Child subtrees of the root node. -/
def TreeView.children : TreeView → List TreeView
  | .node _ _ c => c

/-- `_build_tree`: at depth 0 no children are included; at depth `n+1`
the direct children are sorted by `(name, id)` and expanded with depth
`n`. -/
def build_tree (s : Store) (include_employees : Bool)
    (sort_employees_by : String) : Nat → Dept → TreeView
  | 0, dept =>
      .node dept
        (if include_employees then direct_employees s sort_employees_by dept.id else [])
        []
  | n + 1, dept =>
      .node dept
        (if include_employees then direct_employees s sort_employees_by dept.id else [])
        (((s.depts.filter (fun c => c.parent_id == some dept.id)).insertionSort
            deptRel).map (fun child => build_tree s include_employees sort_employees_by n child))

/-- `get_department_tree`: 404 if the root id does not resolve, otherwise
builds the bounded-depth tree. -/
def get_department_tree (s : Store) (department_id : Nat) (depth : Nat)
    (include_employees : Bool) (sort_employees_by : String) :
    Except Err TreeView :=
  match get_department s department_id with
  | none => .error .notFound
  | some department =>
      .ok (build_tree s include_employees sort_employees_by depth department)

/-- The mutating operations of the service layer. -/
inductive Op where
  | createDept (data : DepartmentCreate)
  | createEmp (department_id : Nat) (data : EmployeeCreate)
  | updateDept (department_id : Nat) (data : DepartmentUpdate)
  | deleteDept (department_id : Nat) (mode : String) (reassign_to : Option Nat)

/-- Run one mutating operation, keeping only the resulting store. -/
def runOp (s : Store) : Op → Except Err Store
  | .createDept data => (create_department s data).map (fun r => r.1)
  | .createEmp did data => (create_employee s did data).map (fun r => r.1)
  | .updateDept did data => (update_department s did data).map (fun r => r.1)
  | .deleteDept did mode t => delete_department s did mode t

/-- Committed store after an operation: on an error the transaction is
rolled back, so the store is the original one. -/
def execOp (s : Store) (op : Op) : Store :=
  match runOp s op with
  | .ok s2 => s2
  | .error _ => s

/-- Stores reachable from the empty database by successful operations. -/
inductive Reachable : Store → Prop
  | init : Reachable Store.empty
  | step {s s2 : Store} (op : Op) : Reachable s → runOp s op = .ok s2 → Reachable s2

/-- Chain of ancestors of `x` obtained by following `parent_id` pointers,
cut off at `fuel` steps (a spec-level notion used to state
cycle-freedom). -/
def ancChain (ds : List Dept) : Nat → Nat → List Nat
  | 0, _ => []
  | fuel + 1, x =>
      match (ds.find? (fun d => d.id == x)).bind Dept.parent_id with
      | none => []
      | some p => p :: ancChain ds fuel p

/-- Cycle-freedom: no department is its own ancestor under the transitive
parent relation. -/
def Acyclic (ds : List Dept) : Prop :=
  ∀ d ∈ ds, d.id ∉ ancChain ds ds.length d.id

instance (ds : List Dept) : Decidable (Acyclic ds) := by
  unfold Acyclic; infer_instance

/-- Reflexive-transitive closure of the `children` relation: the rows the
cascade delete removes. -/
inductive ChildStar (ds : List Dept) (root : Nat) : Nat → Prop
  | refl : ChildStar ds root root
  | step {p : Nat} {d : Dept} : ChildStar ds root p → d ∈ ds →
      d.parent_id = some p → ChildStar ds root d.id

/-- Sibling-name uniqueness: distinct departments sharing a `parent_id`
(including both null) never share a name. -/
def SibUnique (ds : List Dept) : Prop :=
  ds.Pairwise (fun a b => ¬(a.name = b.name ∧ a.parent_id = b.parent_id))

instance (ds : List Dept) : Decidable (SibUnique ds) := by
  unfold SibUnique; infer_instance

/-! ### Helper lemmas -/

theorem commitDepts_ok_iff {s s2 : Store} :
    commitDepts s = .ok s2 ↔ deptConstraintsOk s.depts = true ∧ s2 = s := by
  unfold commitDepts
  split
  · rename_i h
    simp [h, eq_comm]
  · rename_i h
    simp [h]

theorem deptConstraintsOk_iff {ds : List Dept} :
    deptConstraintsOk ds = true ↔ SibUnique ds := by
  induction ds with
  | nil => simp [deptConstraintsOk, SibUnique]
  | cons d rest ih =>
      simp only [deptConstraintsOk, SibUnique, List.pairwise_cons, Bool.and_eq_true,
        List.all_eq_true, Bool.not_eq_true', Bool.and_eq_false_iff]
      rw [SibUnique] at ih
      rw [ih]
      constructor
      · rintro ⟨h1, h2⟩
        refine ⟨fun b hb => ?_, h2⟩
        rcases h1 b hb with h | h
        · rintro ⟨hn, _⟩
          exact absurd (beq_iff_eq.mpr hn) (by simp [h])
        · rintro ⟨_, hp⟩
          exact absurd (beq_iff_eq.mpr hp) (by simp [h])
      · rintro ⟨h1, h2⟩
        refine ⟨fun b hb => ?_, h2⟩
        by_cases hn : d.name = b.name
        · right
          by_cases hp : d.parent_id = b.parent_id
          · exact absurd ⟨hn, hp⟩ (h1 b hb)
          · simpa using hp
        · left
          simpa using hn

theorem check_name_eq_true_iff {s : Store} {n : String} {p : Option Nat} :
    check_name_unique_under_parent s n p none = true ↔
      ∃ d ∈ s.depts, d.name = n ∧ d.parent_id = p := by
  simp [check_name_unique_under_parent, List.any_eq_true]

theorem get_department_eq_none_iff {s : Store} {i : Nat} :
    get_department s i = none ↔ ∀ d ∈ s.depts, d.id ≠ i := by
  simp [get_department, List.find?_eq_none]

theorem get_department_eq_some_mem {s : Store} {i : Nat} {d : Dept}
    (h : get_department s i = some d) : d ∈ s.depts ∧ d.id = i := by
  have hm := List.mem_of_find?_eq_some h
  have hp := List.find?_some h
  exact ⟨hm, by simpa using hp⟩

theorem update_apply_ok {s : Store} {dept : Dept} {nn : String} {np : Option Nat}
    {s2 : Store} {d2 : Dept}
    (h : update_apply s dept nn np = .ok (s2, d2)) :
    check_name_unique_under_parent s nn np (some dept.id) = false ∧
    deptConstraintsOk s2.depts = true ∧
    s2 = update_store s dept.id nn np ∧
    d2 = { dept with name := nn, parent_id := np } := by
  unfold update_apply at h
  split at h
  · exact absurd h (by simp)
  · rename_i hck
    cases hc : commitDepts (update_store s dept.id nn np) with
    | ok s3 =>
        rw [hc] at h
        obtain ⟨hcon, hs⟩ := commitDepts_ok_iff.mp hc
        obtain ⟨h1, h2⟩ := Prod.mk.injEq .. ▸ (Except.ok.injEq .. ▸ h)
        subst h1
        exact ⟨by simpa using hck, hs ▸ hcon, hs, h2.symm⟩
    | error e =>
        rw [hc] at h
        exact absurd h (by simp)

theorem update_department_ok {s : Store} {did : Nat} {data : DepartmentUpdate}
    {s2 : Store} {d2 : Dept}
    (h : update_department s did data = .ok (s2, d2)) :
    ∃ dept, get_department s did = some dept ∧
      d2 = { dept with
             name := match data.name with | some n => n | none => dept.name,
             parent_id :=
               match data.parent_id with | some p => some p | none => dept.parent_id } ∧
      s2 = update_store s did
             (match data.name with | some n => n | none => dept.name)
             (match data.parent_id with | some p => some p | none => dept.parent_id) := by
  unfold update_department at h
  cases hg : get_department s did with
  | none => rw [hg] at h; exact absurd h (by simp)
  | some dept =>
      rw [hg] at h
      simp only at h
      have hid : dept.id = did := (get_department_eq_some_mem hg).2
      refine ⟨dept, rfl, ?_⟩
      split at h
      · exact absurd h (by simp)
      · rename_i hself
        split at h
        · split at h
          · exact absurd h (by simp)
          · split at h
            · exact absurd h (by simp)
            · obtain ⟨_, _, hs, hd⟩ := update_apply_ok h
              exact ⟨hd, by rw [hs, hid]⟩
        · obtain ⟨_, _, hs, hd⟩ := update_apply_ok h
          exact ⟨hd, by rw [hs, hid]⟩

/-! ### C1 -/

/-- C1: cycle-freedom is NOT a reachable-state invariant.  From the
reachable two-department store (root `A`, child `B`), the reassign-delete
of `A` with target `B` succeeds and commits a state in which department 2
is its own parent, hence its own ancestor; the code never checks that the
reassign target lies outside the deleted department's subtree. -/
theorem c1_reassign_delete_breaks_cycle_freedom :
    Reachable ⟨[⟨2, "B", some 2, 1⟩], [], 3, 1, 2⟩ ∧
    ¬ Acyclic [⟨2, "B", some 2, 1⟩] := by
  have h0 : Reachable Store.empty := .init
  have h1 : Reachable ⟨[⟨1, "A", none, 0⟩], [], 2, 1, 1⟩ :=
    .step (.createDept ⟨"A", none⟩) h0 (by rfl)
  have h2 : Reachable ⟨[⟨1, "A", none, 0⟩, ⟨2, "B", some 1, 1⟩], [], 3, 1, 2⟩ :=
    .step (.createDept ⟨"B", some 1⟩) h1 (by rfl)
  have h3 : Reachable ⟨[⟨2, "B", some 2, 1⟩], [], 3, 1, 2⟩ :=
    .step (.deleteDept 1 "reassign" (some 2)) h2 (by rfl)
  exact ⟨h3, by decide⟩

/-! ### C4 -/

/-- C4: failure atomicity.  Every service error is raised before the
single commit of the operation, and a failed commit rolls the transaction
back, so the committed store after a failed operation is the original
store. -/
theorem c4_failure_atomicity (s : Store) (op : Op) (e : Err)
    (h : runOp s op = .error e) : execOp s op = s := by
  unfold execOp
  rw [h]

/-- Witness for C4: creating a second root named `A` fails with a
conflict and leaves the store unchanged. -/
theorem c4_failure_atomicity_witness :
    runOp ⟨[⟨1, "A", none, 0⟩], [], 2, 1, 1⟩ (.createDept ⟨"A", none⟩) =
      .error .conflict ∧
    execOp ⟨[⟨1, "A", none, 0⟩], [], 2, 1, 1⟩ (.createDept ⟨"A", none⟩) =
      ⟨[⟨1, "A", none, 0⟩], [], 2, 1, 1⟩ :=
  ⟨rfl, c4_failure_atomicity _ _ .conflict rfl⟩

/-! ### C6 -/

/-- C6 counterexample: a PATCH body whose `parent_id` field is present and
explicitly `null` does NOT make the department a root: pydantic parses the
explicit `null` to `None` and the service then keeps the current parent
(`some 1`), while the claim demands the supplied value (`null`). -/
theorem c6_explicit_null_is_treated_as_omission :
    (parseDepartmentUpdate ⟨none, some none⟩).parent_id = none ∧
    update_department ⟨[⟨1, "A", none, 0⟩, ⟨2, "B", some 1, 0⟩], [], 3, 1, 1⟩ 2
        (parseDepartmentUpdate ⟨none, some none⟩) =
      .ok (⟨[⟨1, "A", none, 0⟩, ⟨2, "B", some 1, 0⟩], [], 3, 1, 1⟩,
           ⟨2, "B", some 1, 0⟩) ∧
    (⟨2, "B", some 1, 0⟩ : Dept).parent_id ≠ none :=
  ⟨rfl, rfl, by decide⟩

/-- C6 (amended): the effective new name/parent of an update equal the
current values whenever the parsed field is `None` — which happens when
the field is omitted, when it is explicitly `null`, and (for the name)
when it is a whitespace-only string — and equal the supplied value when
the parsed field is non-null. -/
theorem c6_update_effective_defaults (s : Store) (did : Nat) (dept : Dept)
    (raw : RawDepartmentUpdate) (s2 : Store) (d2 : Dept)
    (hd : get_department s did = some dept)
    (h : update_department s did (parseDepartmentUpdate raw) = .ok (s2, d2)) :
    (∀ n, (parseDepartmentUpdate raw).name = some n → d2.name = n) ∧
    ((parseDepartmentUpdate raw).name = none → d2.name = dept.name) ∧
    (∀ p, (parseDepartmentUpdate raw).parent_id = some p → d2.parent_id = some p) ∧
    ((parseDepartmentUpdate raw).parent_id = none → d2.parent_id = dept.parent_id) ∧
    (raw.name = none → d2.name = dept.name) ∧
    (raw.parent_id = none → d2.parent_id = dept.parent_id) ∧
    (raw.parent_id = some none → d2.parent_id = dept.parent_id) ∧
    (∀ t, raw.name = some (some t) → pyStrip t = "" → d2.name = dept.name) := by
  obtain ⟨dept2, hg, hd2, _⟩ := update_department_ok h
  rw [hd] at hg
  obtain rfl : dept2 = dept := by injection hg with hg2; exact hg2.symm
  refine ⟨?_, ?_, ?_, ?_, ?_, ?_, ?_, ?_⟩
  · intro n hn; rw [hd2]; simp [hn]
  · intro hn; rw [hd2]; simp [hn]
  · intro p hp; rw [hd2]; simp [hp]
  · intro hp; rw [hd2]; simp [hp]
  · intro hn; rw [hd2]; simp [parseDepartmentUpdate, hn]
  · intro hp; rw [hd2]; simp [parseDepartmentUpdate, hp]
  · intro hp; rw [hd2]; simp [parseDepartmentUpdate, hp]
  · intro t ht htr; rw [hd2]; simp [parseDepartmentUpdate, ht, htr]

/-- Witness for C6 (amended): a PATCH with name `B2` and an explicit
`null` parent renames the department and keeps its parent. -/
theorem c6_update_effective_defaults_witness :
    (∀ n, (parseDepartmentUpdate ⟨some (some "B2"), some none⟩).name = some n →
      (⟨2, "B2", some 1, 0⟩ : Dept).name = n) ∧
    ((parseDepartmentUpdate ⟨some (some "B2"), some none⟩).name = none →
      (⟨2, "B2", some 1, 0⟩ : Dept).name = (⟨2, "B", some 1, 0⟩ : Dept).name) ∧
    (∀ p, (parseDepartmentUpdate ⟨some (some "B2"), some none⟩).parent_id = some p →
      (⟨2, "B2", some 1, 0⟩ : Dept).parent_id = some p) ∧
    ((parseDepartmentUpdate ⟨some (some "B2"), some none⟩).parent_id = none →
      (⟨2, "B2", some 1, 0⟩ : Dept).parent_id = (⟨2, "B", some 1, 0⟩ : Dept).parent_id) ∧
    ((⟨some (some "B2"), some none⟩ : RawDepartmentUpdate).name = none →
      (⟨2, "B2", some 1, 0⟩ : Dept).name = (⟨2, "B", some 1, 0⟩ : Dept).name) ∧
    ((⟨some (some "B2"), some none⟩ : RawDepartmentUpdate).parent_id = none →
      (⟨2, "B2", some 1, 0⟩ : Dept).parent_id = (⟨2, "B", some 1, 0⟩ : Dept).parent_id) ∧
    ((⟨some (some "B2"), some none⟩ : RawDepartmentUpdate).parent_id = some none →
      (⟨2, "B2", some 1, 0⟩ : Dept).parent_id = (⟨2, "B", some 1, 0⟩ : Dept).parent_id) ∧
    (∀ t, (⟨some (some "B2"), some none⟩ : RawDepartmentUpdate).name = some (some t) →
      pyStrip t = "" →
      (⟨2, "B2", some 1, 0⟩ : Dept).name = (⟨2, "B", some 1, 0⟩ : Dept).name) :=
  c6_update_effective_defaults
    ⟨[⟨1, "A", none, 0⟩, ⟨2, "B", some 1, 0⟩], [], 3, 1, 1⟩ 2 ⟨2, "B", some 1, 0⟩
    ⟨some (some "B2"), some none⟩
    ⟨[⟨1, "A", none, 0⟩, ⟨2, "B2", some 1, 0⟩], [], 3, 1, 1⟩ ⟨2, "B2", some 1, 0⟩
    rfl (by rfl)

/-! ### C10 -/

/-- C10: a successful update never makes a department a root.  The
persisted parent of the updated row is the request value when that is
non-null and the current parent otherwise, so it is non-null whenever the
current parent is non-null; a null `parent_id` in the request (omitted or
explicit null) always keeps the current parent. -/
theorem c10_update_never_makes_root (s : Store) (did : Nat)
    (data : DepartmentUpdate) (dept : Dept) (s2 : Store) (d2 : Dept)
    (hd : get_department s did = some dept)
    (h : update_department s did data = .ok (s2, d2)) :
    (dept.parent_id.isSome = true → d2.parent_id.isSome = true) ∧
    (data.parent_id = none → d2.parent_id = dept.parent_id) ∧
    (∀ d ∈ s2.depts, d.id = did → d.parent_id = d2.parent_id) := by
  obtain ⟨dept2, hg, hd2, hs2⟩ := update_department_ok h
  rw [hd] at hg
  obtain rfl : dept2 = dept := by injection hg with hg2; exact hg2.symm
  refine ⟨?_, ?_, ?_⟩
  · intro hp
    rw [hd2]
    cases hdp : data.parent_id with
    | some p => simp [hdp]
    | none => simpa [hdp] using hp
  · intro hp
    rw [hd2]
    simp [hp]
  · intro d hdm hdi
    rw [hs2] at hdm
    unfold update_store at hdm
    simp only [List.mem_map] at hdm
    obtain ⟨a, _, ha⟩ := hdm
    by_cases hc : a.id = did
    · rw [← ha, hd2]
      simp [hc]
    · rw [← ha] at hdi
      simp [hc] at hdi

/-- Witness for C10: updating the name of a non-root department keeps its
parent non-null. -/
theorem c10_update_never_makes_root_witness :
    ((⟨2, "B", some 1, 0⟩ : Dept).parent_id.isSome = true →
      (⟨2, "B2", some 1, 0⟩ : Dept).parent_id.isSome = true) ∧
    ((⟨some "B2", none⟩ : DepartmentUpdate).parent_id = none →
      (⟨2, "B2", some 1, 0⟩ : Dept).parent_id = (⟨2, "B", some 1, 0⟩ : Dept).parent_id) ∧
    (∀ d ∈ (⟨[⟨1, "A", none, 0⟩, ⟨2, "B2", some 1, 0⟩], [], 3, 1, 1⟩ : Store).depts,
      d.id = 2 → d.parent_id = (⟨2, "B2", some 1, 0⟩ : Dept).parent_id) :=
  c10_update_never_makes_root
    ⟨[⟨1, "A", none, 0⟩, ⟨2, "B", some 1, 0⟩], [], 3, 1, 1⟩ 2 ⟨some "B2", none⟩
    ⟨2, "B", some 1, 0⟩
    ⟨[⟨1, "A", none, 0⟩, ⟨2, "B2", some 1, 0⟩], [], 3, 1, 1⟩ ⟨2, "B2", some 1, 0⟩
    rfl (by rfl)

/-! ### C7 -/

/-- C7: error conditions of update.  With `np` the effective new parent
(request value, else current): a self-parent is a conflict; a non-null new
parent inside the department's descendant set (as computed by the
iterative work-list traversal) is a conflict; a non-null new parent that
resolves to no department is not-found; otherwise control reaches the
name-uniqueness check (`update_apply`). -/
theorem c7_update_error_conditions (s : Store) (did : Nat)
    (data : DepartmentUpdate) (dept : Dept) (np : Option Nat)
    (hd : get_department s did = some dept)
    (hnp : np = match data.parent_id with
                | some p => some p
                | none => dept.parent_id) :
    (np = some did → update_department s did data = .error .conflict) ∧
    (∀ p, np = some p → p ≠ did → p ∈ get_descendant_ids s did →
      update_department s did data = .error .conflict) ∧
    (∀ p, np = some p → p ≠ did → p ∉ get_descendant_ids s did →
      get_department s p = none →
      update_department s did data = .error .notFound) ∧
    (∀ p, np = some p → p ≠ did → p ∉ get_descendant_ids s did →
      (∃ q, get_department s p = some q) →
      update_department s did data =
        update_apply s dept
          (match data.name with | some n => n | none => dept.name) np) ∧
    (np = none →
      update_department s did data =
        update_apply s dept
          (match data.name with | some n => n | none => dept.name) np) := by
  unfold update_department
  rw [hd]
  simp only [← hnp]
  refine ⟨?_, ?_, ?_, ?_, ?_⟩
  · intro h
    simp [h]
  · intro p hp hne hmem
    subst hp
    simp [hne, hmem]
  · intro p hp hne hmem hnone
    subst hp
    simp [hne, hnone]
    exact fun h2 => absurd h2 hmem
  · intro p hp hne hmem hsome
    subst hp
    obtain ⟨q, hq⟩ := hsome
    simp [hne, hq]
    exact fun h2 => absurd h2 hmem
  · intro h
    subst h
    simp

/-- Witness for C7: moving a department under its own child is rejected
with a conflict. -/
theorem c7_update_error_conditions_witness :
    update_department ⟨[⟨1, "A", none, 0⟩, ⟨2, "B", some 1, 0⟩], [], 3, 1, 1⟩ 1
        ⟨none, some 2⟩ =
      .error .conflict :=
  (c7_update_error_conditions
      ⟨[⟨1, "A", none, 0⟩, ⟨2, "B", some 1, 0⟩], [], 3, 1, 1⟩ 1 ⟨none, some 2⟩
      ⟨1, "A", none, 0⟩ (some 2) rfl rfl).2.1 2 rfl (by decide) (by decide)

theorem SibUnique_append_singleton {ds : List Dept} {d : Dept}
    (h : SibUnique ds)
    (hd : ∀ a ∈ ds, ¬(a.name = d.name ∧ a.parent_id = d.parent_id)) :
    SibUnique (ds ++ [d]) := by
  unfold SibUnique at *
  rw [List.pairwise_append]
  refine ⟨h, by simp, ?_⟩
  intro a ha b hb
  simp only [List.mem_singleton] at hb
  subst hb
  exact hd a ha

/-! ### C9 -/

/-- C9: behaviour of create.  A given but unresolvable parent is
not-found (and nothing is written); with the parent constraint satisfied,
an existing row with the same `(name, parent_id)` — including two
null-parent roots — is a conflict; otherwise, from any store satisfying
the sibling-uniqueness constraint, the new department with the requested
name and parent is appended and returned. -/
theorem c9_create_behaviour (s : Store) (data : DepartmentCreate) :
    (∀ pid, data.parent_id = some pid → get_department s pid = none →
      create_department s data = .error .notFound) ∧
    ((data.parent_id = none ∨
        ∃ pid pd, data.parent_id = some pid ∧ get_department s pid = some pd) →
      (∃ d ∈ s.depts, d.name = data.name ∧ d.parent_id = data.parent_id) →
      create_department s data = .error .conflict) ∧
    ((data.parent_id = none ∨
        ∃ pid pd, data.parent_id = some pid ∧ get_department s pid = some pd) →
      (¬ ∃ d ∈ s.depts, d.name = data.name ∧ d.parent_id = data.parent_id) →
      SibUnique s.depts →
      create_department s data =
        .ok (insert_department_store s data, create_dept_row s data)) := by
  have hins_conflict :
      (∃ d ∈ s.depts, d.name = data.name ∧ d.parent_id = data.parent_id) →
      insert_department s data = .error .conflict := by
    intro hex
    unfold insert_department
    rw [check_name_eq_true_iff.mpr hex]
    rfl
  have hins_ok :
      (¬ ∃ d ∈ s.depts, d.name = data.name ∧ d.parent_id = data.parent_id) →
      SibUnique s.depts →
      insert_department s data =
        .ok (insert_department_store s data, create_dept_row s data) := by
    intro hnd hu
    have hck : check_name_unique_under_parent s data.name data.parent_id none = false := by
      rw [← Bool.not_eq_true, check_name_eq_true_iff]
      exact hnd
    have hconstr : deptConstraintsOk (insert_department_store s data).depts = true := by
      rw [deptConstraintsOk_iff]
      refine SibUnique_append_singleton hu ?_
      intro a ha hcontra
      exact hnd ⟨a, ha, hcontra⟩
    have hcommit : commitDepts (insert_department_store s data) =
        .ok (insert_department_store s data) :=
      commitDepts_ok_iff.mpr ⟨hconstr, rfl⟩
    unfold insert_department
    rw [hck, hcommit]
    rfl
  refine ⟨?_, ?_, ?_⟩
  · intro pid hp hn
    unfold create_department
    rw [hp]
    simp [hn]
  · intro hparent hex
    unfold create_department
    rcases hparent with hp | ⟨pid, pd, hp, hpd⟩
    · rw [hp]
      exact hins_conflict hex
    · rw [hp]
      simp only [hpd, Option.isNone_some, Bool.false_eq_true, if_false]
      exact hins_conflict hex
  · intro hparent hnd hu
    unfold create_department
    rcases hparent with hp | ⟨pid, pd, hp, hpd⟩
    · rw [hp]
      exact hins_ok hnd hu
    · rw [hp]
      simp only [hpd, Option.isNone_some, Bool.false_eq_true, if_false]
      exact hins_ok hnd hu

/-- Witness for C9: creating a child `B` under the sole root succeeds and
appends the new row. -/
theorem c9_create_behaviour_witness :
    create_department ⟨[⟨1, "A", none, 0⟩], [], 2, 1, 1⟩ ⟨"B", some 1⟩ =
      .ok (insert_department_store ⟨[⟨1, "A", none, 0⟩], [], 2, 1, 1⟩ ⟨"B", some 1⟩,
           create_dept_row ⟨[⟨1, "A", none, 0⟩], [], 2, 1, 1⟩ ⟨"B", some 1⟩) :=
  (c9_create_behaviour ⟨[⟨1, "A", none, 0⟩], [], 2, 1, 1⟩ ⟨"B", some 1⟩).2.2
    (Or.inr ⟨1, ⟨1, "A", none, 0⟩, rfl, rfl⟩) (by decide) (by decide)

theorem commit_constraints {x y : Store} (h : commitDepts x = .ok y) :
    deptConstraintsOk y.depts = true := by
  obtain ⟨hc, rfl⟩ := commitDepts_ok_iff.mp h
  exact hc

theorem insert_department_ok_constraints {s s2 : Store} {data : DepartmentCreate}
    {d : Dept} (h : insert_department s data = .ok (s2, d)) :
    deptConstraintsOk s2.depts = true := by
  unfold insert_department at h
  split at h
  · exact absurd h (by simp)
  · cases hcm : commitDepts (insert_department_store s data) with
    | ok s3 =>
        rw [hcm] at h
        injection h with h3
        injection h3 with ha _
        exact ha ▸ commit_constraints hcm
    | error e =>
        rw [hcm] at h
        exact absurd h (by simp)

theorem create_department_ok_constraints {s : Store} {data : DepartmentCreate}
    {r : Store × Dept} (h : create_department s data = .ok r) :
    deptConstraintsOk r.1.depts = true := by
  obtain ⟨s2, d⟩ := r
  unfold create_department at h
  split at h
  · split at h
    · exact absurd h (by simp)
    · exact insert_department_ok_constraints h
  · exact insert_department_ok_constraints h

theorem create_employee_ok_constraints {s : Store} {did : Nat}
    {data : EmployeeCreate} {r : Store × Emp}
    (h : create_employee s did data = .ok r) :
    deptConstraintsOk r.1.depts = true := by
  obtain ⟨s2, emp⟩ := r
  unfold create_employee at h
  split at h
  · exact absurd h (by simp)
  · rename_i dept hdept
    dsimp only at h
    cases hcm : commitDepts
        { s with emps := s.emps ++ [⟨s.nextEmpId, did, data.full_name, data.position,
                                     data.hired_at, s.clock⟩],
                 nextEmpId := s.nextEmpId + 1, clock := s.clock + 1 } with
    | ok s3 =>
        rw [hcm] at h
        injection h with h3
        injection h3 with ha _
        exact ha ▸ commit_constraints hcm
    | error e =>
        rw [hcm] at h
        exact absurd h (by simp)

theorem update_department_ok_constraints {s : Store} {did : Nat}
    {data : DepartmentUpdate} {r : Store × Dept}
    (h : update_department s did data = .ok r) :
    deptConstraintsOk r.1.depts = true := by
  obtain ⟨s2, d2⟩ := r
  unfold update_department at h
  cases hg : get_department s did with
  | none => rw [hg] at h; exact absurd h (by simp)
  | some dept =>
      rw [hg] at h
      simp only at h
      split at h
      · exact absurd h (by simp)
      · split at h
        · split at h
          · exact absurd h (by simp)
          · split at h
            · exact absurd h (by simp)
            · exact (update_apply_ok h).2.1
        · exact (update_apply_ok h).2.1

theorem delete_department_ok_constraints {s s2 : Store} {did : Nat}
    {mode : String} {target : Option Nat}
    (h : delete_department s did mode target = .ok s2) :
    deptConstraintsOk s2.depts = true := by
  unfold delete_department at h
  cases hg : get_department s did with
  | none => rw [hg] at h; exact absurd h (by simp)
  | some dept =>
      rw [hg] at h
      simp only at h
      split at h
      · exact commit_constraints h
      · split at h
        · split at h
          · exact absurd h (by simp)
          · split at h
            · exact absurd h (by simp)
            · split at h
              · exact absurd h (by simp)
              · exact commit_constraints h
        · exact absurd h (by simp)

theorem runOp_ok_constraints {s s2 : Store} {op : Op}
    (h : runOp s op = .ok s2) : deptConstraintsOk s2.depts = true := by
  cases op with
  | createDept data =>
      simp only [runOp] at h
      cases hc : create_department s data with
      | ok r =>
          rw [hc] at h
          simp only [Except.map] at h
          injection h with h2
          exact h2 ▸ create_department_ok_constraints hc
      | error e =>
          rw [hc] at h
          exact absurd h (by simp [Except.map])
  | createEmp did data =>
      simp only [runOp] at h
      cases hc : create_employee s did data with
      | ok r =>
          rw [hc] at h
          simp only [Except.map] at h
          injection h with h2
          exact h2 ▸ create_employee_ok_constraints hc
      | error e =>
          rw [hc] at h
          exact absurd h (by simp [Except.map])
  | updateDept did data =>
      simp only [runOp] at h
      cases hc : update_department s did data with
      | ok r =>
          rw [hc] at h
          simp only [Except.map] at h
          injection h with h2
          exact h2 ▸ update_department_ok_constraints hc
      | error e =>
          rw [hc] at h
          exact absurd h (by simp [Except.map])
  | deleteDept did mode target =>
      simp only [runOp] at h
      exact delete_department_ok_constraints h

/-! ### C3 -/

/-- C3: sibling-name uniqueness is a reachable-state invariant.  Every
successful operation ends in a commit that validates the uniqueness
constraints of the `departments` table, so every reachable store has
pairwise-distinct names among departments sharing a parent (including the
null parent), in particular after a reassign-delete relinks children. -/
theorem c3_sibling_name_uniqueness (s : Store) (h : Reachable s) :
    SibUnique s.depts := by
  induction h with
  | init => simp [Store.empty, SibUnique]
  | step op hr hok ih =>
      exact deptConstraintsOk_iff.mp (runOp_ok_constraints hok)

/-- Witness for C3: the store reached by creating root `A` and child `B`
has pairwise-distinct sibling names. -/
theorem c3_sibling_name_uniqueness_witness :
    SibUnique [⟨1, "A", none, 0⟩, ⟨2, "B", some 1, 1⟩] :=
  c3_sibling_name_uniqueness ⟨[⟨1, "A", none, 0⟩, ⟨2, "B", some 1, 1⟩], [], 3, 1, 2⟩
    (Reachable.step (.createDept ⟨"B", some 1⟩)
      (Reachable.step (.createDept ⟨"A", none⟩) Reachable.init (by rfl)) (by rfl))

theorem delete_reassign_ok {s s2 : Store} {did tid : Nat}
    (h : delete_department s did "reassign" (some tid) = .ok s2) :
    s2 = reassign_store s did tid := by
  unfold delete_department at h
  cases hg : get_department s did with
  | none => rw [hg] at h; exact absurd h (by simp)
  | some dept =>
      rw [hg] at h
      simp only at h
      rw [if_neg (by decide : ¬("reassign" : String) = "cascade"), if_pos trivial] at h
      split at h
      · exact Except.noConfusion h
      · split at h
        · exact Except.noConfusion h
        · exact (commitDepts_ok_iff.mp h).2

/-! ### C2 -/

/-- C2 counterexample: reassign-deleting department 1 with target 3, a
grandchild of 1, succeeds and changes the employee set of department 3 —
a deeper descendant — because 1's former direct employee is relinked to
it.  The claim's assertion that every deeper descendant is structurally
unchanged for any choice of target is therefore false. -/
theorem c2_deep_target_gains_employees :
    delete_department
        ⟨[⟨1, "A", none, 0⟩, ⟨2, "B", some 1, 0⟩, ⟨3, "C", some 2, 0⟩],
         [⟨1, 1, "Bob", "Dev", none, 0⟩], 4, 2, 1⟩ 1 "reassign" (some 3) =
      .ok ⟨[⟨2, "B", some 3, 0⟩, ⟨3, "C", some 2, 0⟩],
           [⟨1, 3, "Bob", "Dev", none, 0⟩], 4, 2, 1⟩ ∧
    (⟨3, "C", some 2, 0⟩ : Dept) ∈
      [⟨1, "A", none, 0⟩, ⟨2, "B", some 1, 0⟩, (⟨3, "C", some 2, 0⟩ : Dept)] ∧
    (⟨3, "C", some 2, 0⟩ : Dept).parent_id ≠ some 1 ∧
    3 ∈ subtreeIds [⟨1, "A", none, 0⟩, ⟨2, "B", some 1, 0⟩, ⟨3, "C", some 2, 0⟩] 1 ∧
    ([⟨1, 3, "Bob", "Dev", none, 0⟩] : List Emp).filter (fun e => e.department_id == 3) ≠
      ([⟨1, 1, "Bob", "Dev", none, 0⟩] : List Emp).filter (fun e => e.department_id == 3) :=
  ⟨by rfl, by decide, by decide, by decide, by decide⟩

/-- C2 (amended): after a successful reassign-delete of `did` with target
`tid`, the source id no longer resolves, every former direct employee of
`did` is relinked to `tid`, every direct child of `did` is reparented to
`tid`, every other department row is unchanged, and the direct-employee
set of every department other than `did` and the target `tid` is
unchanged (the target itself may gain the deleted department's former
employees). -/
theorem c2_reassign_delete_effects (s : Store) (did tid : Nat) (s2 : Store)
    (h : delete_department s did "reassign" (some tid) = .ok s2) :
    get_department s2 did = none ∧
    (∀ e ∈ s.emps, e.department_id = did →
      { e with department_id := tid } ∈ s2.emps) ∧
    (∀ d ∈ s.depts, d.parent_id = some did → d.id ≠ did →
      { d with parent_id := some tid } ∈ s2.depts) ∧
    (∀ d ∈ s.depts, d.id ≠ did → d.parent_id ≠ some did → d ∈ s2.depts) ∧
    (∀ x : Nat, x ≠ did → x ≠ tid →
      s2.emps.filter (fun e => e.department_id == x) =
        s.emps.filter (fun e => e.department_id == x)) := by
  obtain rfl := delete_reassign_ok h
  refine ⟨?_, ?_, ?_, ?_, ?_⟩
  · rw [get_department]
    apply List.find?_eq_none.mpr
    intro x hx
    have hcond := (List.mem_filter.mp hx).2
    simpa using hcond
  · intro e he hdep
    show { e with department_id := tid } ∈ s.emps.map (fun e =>
        if e.department_id == did then { e with department_id := tid } else e)
    have hme := List.mem_map_of_mem (fun e : Emp =>
        if e.department_id == did then { e with department_id := tid } else e) he
    have heq : (if e.department_id == did then { e with department_id := tid } else e) =
        { e with department_id := tid } := by simp [hdep]
    simpa only [heq] using hme
  · intro d hd hpar hid
    show { d with parent_id := some tid } ∈ (s.depts.map (fun d =>
        if d.parent_id == some did then { d with parent_id := some tid } else d)).filter
        (fun d => !(d.id == did))
    apply List.mem_filter.mpr
    refine ⟨?_, by simpa using hid⟩
    have hme := List.mem_map_of_mem (fun d : Dept =>
        if d.parent_id == some did then { d with parent_id := some tid } else d) hd
    have heq : (if d.parent_id == some did then { d with parent_id := some tid } else d) =
        { d with parent_id := some tid } := by simp [hpar]
    simpa only [heq] using hme
  · intro d hd hid hpar
    show d ∈ (s.depts.map (fun d =>
        if d.parent_id == some did then { d with parent_id := some tid } else d)).filter
        (fun d => !(d.id == did))
    apply List.mem_filter.mpr
    refine ⟨?_, by simpa using hid⟩
    have hme := List.mem_map_of_mem (fun d : Dept =>
        if d.parent_id == some did then { d with parent_id := some tid } else d) hd
    have heq : (if d.parent_id == some did then { d with parent_id := some tid } else d) = d := by
      simp [hpar]
    simpa only [heq] using hme
  · intro x hxd hxt
    show (s.emps.map _).filter _ = _
    induction s.emps with
    | nil => rfl
    | cons e t ih =>
        simp only [List.map_cons, List.filter_cons]
        by_cases hdep : e.department_id = did
        · have h1 : ((if e.department_id == did then
              { e with department_id := tid } else e).department_id == x) = false := by
            simp [hdep, Ne.symm hxt]
          have h2 : (e.department_id == x) = false := by
            simp [hdep, Ne.symm hxd]
          rw [h1, h2]
          exact ih
        · have h3 : (if e.department_id == did then
              { e with department_id := tid } else e) = e := by
            simp [hdep]
          rw [h3]
          by_cases hx : e.department_id = x
          · simp only [hx, beq_self_eq_true, if_true]
            rw [ih]
          · have h4 : (e.department_id == x) = false := by simp [hx]
            rw [h4]
            exact ih

/-- Witness for C2 (amended): reassign-deleting root `A` into root `B`
moves `A`'s employee under `B` and removes `A`. -/
theorem c2_reassign_delete_effects_witness :
    get_department ⟨[⟨2, "B", none, 0⟩], [⟨1, 2, "Bob", "Dev", none, 0⟩], 3, 2, 1⟩ 1 =
      none ∧
    (∀ e ∈ (⟨[⟨1, "A", none, 0⟩, ⟨2, "B", none, 0⟩],
              [⟨1, 1, "Bob", "Dev", none, 0⟩], 3, 2, 1⟩ : Store).emps,
      e.department_id = 1 →
      { e with department_id := 2 } ∈
        (⟨[⟨2, "B", none, 0⟩], [⟨1, 2, "Bob", "Dev", none, 0⟩], 3, 2, 1⟩ : Store).emps) ∧
    (∀ d ∈ (⟨[⟨1, "A", none, 0⟩, ⟨2, "B", none, 0⟩],
              [⟨1, 1, "Bob", "Dev", none, 0⟩], 3, 2, 1⟩ : Store).depts,
      d.parent_id = some 1 → d.id ≠ 1 →
      { d with parent_id := some 2 } ∈
        (⟨[⟨2, "B", none, 0⟩], [⟨1, 2, "Bob", "Dev", none, 0⟩], 3, 2, 1⟩ : Store).depts) ∧
    (∀ d ∈ (⟨[⟨1, "A", none, 0⟩, ⟨2, "B", none, 0⟩],
              [⟨1, 1, "Bob", "Dev", none, 0⟩], 3, 2, 1⟩ : Store).depts,
      d.id ≠ 1 → d.parent_id ≠ some 1 →
      d ∈ (⟨[⟨2, "B", none, 0⟩], [⟨1, 2, "Bob", "Dev", none, 0⟩], 3, 2, 1⟩ : Store).depts) ∧
    (∀ x : Nat, x ≠ 1 → x ≠ 2 →
      (⟨[⟨2, "B", none, 0⟩], [⟨1, 2, "Bob", "Dev", none, 0⟩], 3, 2, 1⟩ : Store).emps.filter
          (fun e => e.department_id == x) =
        (⟨[⟨1, "A", none, 0⟩, ⟨2, "B", none, 0⟩],
          [⟨1, 1, "Bob", "Dev", none, 0⟩], 3, 2, 1⟩ : Store).emps.filter
          (fun e => e.department_id == x)) :=
  c2_reassign_delete_effects
    ⟨[⟨1, "A", none, 0⟩, ⟨2, "B", none, 0⟩], [⟨1, 1, "Bob", "Dev", none, 0⟩], 3, 2, 1⟩
    1 2 ⟨[⟨2, "B", none, 0⟩], [⟨1, 2, "Bob", "Dev", none, 0⟩], 3, 2, 1⟩ (by rfl)

/-! ### Downward-closure lemmas for the cascade delete -/

theorem subtreeStep_mem_of_mem {ds : List Dept} {acc : List Nat} {x : Nat}
    (h : x ∈ acc) : x ∈ subtreeStep ds acc :=
  List.mem_append_left _ h

theorem subtreeStep_sound {ds : List Dept} {acc : List Nat} {x : Nat}
    (h : x ∈ subtreeStep ds acc) :
    x ∈ acc ∨ ∃ d ∈ ds, d.id = x ∧ ∃ p, d.parent_id = some p ∧ p ∈ acc := by
  unfold subtreeStep at h
  rcases List.mem_append.mp h with h | h
  · exact Or.inl h
  · right
    rw [List.mem_dedup] at h
    obtain ⟨d, hd, rfl⟩ := List.mem_map.mp h
    obtain ⟨hd1, hcond⟩ := List.mem_filter.mp hd
    rw [Bool.and_eq_true] at hcond
    obtain ⟨hpar, _⟩ := hcond
    cases hp : d.parent_id with
    | none => rw [hp] at hpar; exact absurd hpar (by simp)
    | some p =>
        rw [hp] at hpar
        exact ⟨d, hd1, rfl, p, hp, by simpa using hpar⟩

theorem subtreeStep_closed {ds : List Dept} {acc : List Nat}
    (hfix : subtreeStep ds acc = acc) :
    ∀ d ∈ ds, ∀ p, d.parent_id = some p → p ∈ acc → d.id ∈ acc := by
  intro d hd p hp hpacc
  by_contra hnot
  have hpart := List.append_right_eq_self.mp hfix
  have hdmem : d ∈ ds.filter (fun d =>
      (match d.parent_id with
       | some q => acc.contains q
       | none => false) && !acc.contains d.id) := by
    refine List.mem_filter.mpr ⟨hd, ?_⟩
    rw [hp]
    simp only [Bool.and_eq_true, Bool.not_eq_true']
    refine ⟨by simpa using hpacc, ?_⟩
    simpa using hnot
  have hmem : d.id ∈ ((ds.filter (fun d =>
      (match d.parent_id with
       | some q => acc.contains q
       | none => false) && !acc.contains d.id)).map (fun d => d.id)).dedup :=
    List.mem_dedup.mpr (List.mem_map_of_mem _ hdmem)
  rw [hpart] at hmem
  exact absurd hmem (List.not_mem_nil _)

theorem subtreeStep_grow {ds : List Dept} {acc : List Nat}
    (h : subtreeStep ds acc ≠ acc) :
    acc.length + 1 ≤ (subtreeStep ds acc).length := by
  unfold subtreeStep at *
  cases hp : ((ds.filter (fun d =>
      (match d.parent_id with
       | some q => acc.contains q
       | none => false) && !acc.contains d.id)).map (fun d => d.id)).dedup with
  | nil => rw [hp] at h; simp at h
  | cons a t =>
      simp [List.length_append]

theorem subtreeStep_nodup {ds : List Dept} {acc : List Nat} (h : acc.Nodup) :
    (subtreeStep ds acc).Nodup := by
  unfold subtreeStep
  refine List.Nodup.append h (List.nodup_dedup _) ?_
  intro a ha hb
  rw [List.mem_dedup] at hb
  obtain ⟨d, hd, hdi⟩ := List.mem_map.mp hb
  have hcond := (List.mem_filter.mp hd).2
  rw [Bool.and_eq_true] at hcond
  have h2 := hcond.2
  rw [Bool.not_eq_true'] at h2
  have h3 : d.id ∉ acc := by simpa using h2
  exact h3 (hdi ▸ ha)

theorem subtreeIter_nodup (ds : List Dept) (root : Nat) (n : Nat) :
    ((subtreeStep ds)^[n] [root]).Nodup := by
  induction n with
  | zero => simp
  | succ n ih =>
      rw [Function.iterate_succ_apply']
      exact subtreeStep_nodup ih

theorem subtreeIter_subset (ds : List Dept) (root : Nat) (n : Nat) :
    ∀ x ∈ (subtreeStep ds)^[n] [root], x ∈ root :: ds.map Dept.id := by
  induction n with
  | zero =>
      intro x hx
      rw [Function.iterate_zero_apply, List.mem_singleton] at hx
      subst hx
      exact List.mem_cons_self _ _
  | succ n ih =>
      intro x hx
      rw [Function.iterate_succ_apply'] at hx
      rcases subtreeStep_sound hx with h | ⟨d, hd, rfl, _⟩
      · exact ih x h
      · exact List.mem_cons_of_mem _ (List.mem_map_of_mem _ hd)

theorem subtreeIter_length_le (ds : List Dept) (root : Nat) (n : Nat) :
    ((subtreeStep ds)^[n] [root]).length ≤ ds.length + 1 := by
  have h := (List.subperm_of_subset (subtreeIter_nodup ds root n)
    (subtreeIter_subset ds root n)).length_le
  simpa using h

theorem subtreeIter_mono_mem (ds : List Dept) (n : Nat) :
    ∀ (acc : List Nat), ∀ x ∈ acc, x ∈ (subtreeStep ds)^[n] acc := by
  induction n with
  | zero => intro acc x h; simpa using h
  | succ n ih =>
      intro acc x h
      rw [Function.iterate_succ_apply]
      exact ih _ x (subtreeStep_mem_of_mem h)

theorem subtreeStep_fix_stable {ds : List Dept} {acc : List Nat}
    (h : subtreeStep ds acc = acc) (n : Nat) :
    (subtreeStep ds)^[n] acc = acc := by
  induction n with
  | zero => rfl
  | succ n ih => rw [Function.iterate_succ_apply', ih, h]

theorem subtreeStep_exists_fix (ds : List Dept) (root : Nat) :
    ∃ m ≤ ds.length,
      subtreeStep ds ((subtreeStep ds)^[m] [root]) = (subtreeStep ds)^[m] [root] := by
  by_contra hno
  push_neg at hno
  have hlen : ∀ m, m ≤ ds.length + 1 →
      m + 1 ≤ ((subtreeStep ds)^[m] [root]).length := by
    intro m
    induction m with
    | zero => intro _; simp
    | succ m ih =>
        intro hm
        have h1 := ih (by omega)
        have h2 := hno m (by omega)
        rw [Function.iterate_succ_apply']
        have h3 := subtreeStep_grow h2
        omega
  have h4 := hlen (ds.length + 1) (le_refl _)
  have h5 := subtreeIter_length_le ds root (ds.length + 1)
  omega

theorem subtreeIds_fix (ds : List Dept) (root : Nat) :
    subtreeStep ds (subtreeIds ds root) = subtreeIds ds root := by
  obtain ⟨m, hm, hfix⟩ := subtreeStep_exists_fix ds root
  have hstable : (subtreeStep ds)^[ds.length + 1] [root] =
      (subtreeStep ds)^[m] [root] := by
    have hsplit : ds.length + 1 = (ds.length + 1 - m) + m := by omega
    rw [hsplit, Function.iterate_add_apply]
    exact subtreeStep_fix_stable hfix _
  unfold subtreeIds
  rw [hstable, hfix]

theorem subtreeIds_sound (ds : List Dept) (root : Nat) :
    ∀ x ∈ subtreeIds ds root, ChildStar ds root x := by
  have main : ∀ n (acc : List Nat), (∀ y ∈ acc, ChildStar ds root y) →
      ∀ x ∈ (subtreeStep ds)^[n] acc, ChildStar ds root x := by
    intro n
    induction n with
    | zero =>
        intro acc h x hx
        rw [Function.iterate_zero_apply] at hx
        exact h x hx
    | succ n ih =>
        intro acc h x hx
        rw [Function.iterate_succ_apply] at hx
        refine ih _ ?_ x hx
        intro y hy
        rcases subtreeStep_sound hy with h1 | ⟨d, hd, rfl, p, hp, hpacc⟩
        · exact h y h1
        · exact ChildStar.step (h p hpacc) hd hp
  intro x hx
  refine main _ [root] ?_ x hx
  intro y hy
  rw [List.mem_singleton] at hy
  subst hy
  exact .refl

theorem subtreeIds_complete (ds : List Dept) (root : Nat) :
    ∀ x, ChildStar ds root x → x ∈ subtreeIds ds root := by
  intro x hx
  induction hx with
  | refl => exact subtreeIter_mono_mem ds _ [root] root (List.mem_singleton_self _)
  | step hps hd hp ih =>
      exact subtreeStep_closed (subtreeIds_fix ds root) _ hd _ hp ih

theorem subtreeIds_mem_iff (ds : List Dept) (root : Nat) (x : Nat) :
    x ∈ subtreeIds ds root ↔ ChildStar ds root x :=
  ⟨fun h => subtreeIds_sound ds root x h, fun h => subtreeIds_complete ds root x h⟩

/-! ### C5 -/

/-- C5: cascade delete removes exactly the department, the full
transitive closure of its descendants (the reflexive-transitive closure
`ChildStar` of the children relation), and every employee whose
department lies in that closure; afterwards the root id no longer
resolves, no surviving employee references a removed department, and all
rows outside the closure survive unchanged. -/
theorem c5_cascade_delete (s : Store) (did : Nat) (dept : Dept)
    (hd : get_department s did = some dept) (hu : SibUnique s.depts) :
    delete_department s did "cascade" none = .ok (cascade_store s did) ∧
    get_department (cascade_store s did) did = none ∧
    (∀ d ∈ s.depts, d ∈ (cascade_store s did).depts ↔
      ¬ ChildStar s.depts did d.id) ∧
    (∀ e ∈ s.emps, e ∈ (cascade_store s did).emps ↔
      ¬ ChildStar s.depts did e.department_id) ∧
    (∀ e ∈ (cascade_store s did).emps, ¬ ChildStar s.depts did e.department_id) := by
  have hroot : did ∈ subtreeIds s.depts did :=
    subtreeIds_complete s.depts did did .refl
  refine ⟨?_, ?_, ?_, ?_, ?_⟩
  · unfold delete_department
    rw [hd]
    simp only
    rw [if_pos trivial]
    refine commitDepts_ok_iff.mpr ⟨?_, rfl⟩
    rw [deptConstraintsOk_iff]
    exact List.Pairwise.sublist (List.filter_sublist _) hu
  · rw [get_department]
    apply List.find?_eq_none.mpr
    intro x hx
    have hcond := (List.mem_filter.mp hx).2
    rw [Bool.not_eq_true'] at hcond
    have hnot : x.id ∉ subtreeIds s.depts did := by simpa using hcond
    simp only [beq_iff_eq]
    intro hxid
    exact hnot (hxid ▸ hroot)
  · intro d hdm
    constructor
    · intro hmem hstar
      have hcond := (List.mem_filter.mp hmem).2
      rw [Bool.not_eq_true'] at hcond
      have hnot : d.id ∉ subtreeIds s.depts did := by simpa using hcond
      exact hnot (subtreeIds_complete s.depts did d.id hstar)
    · intro hstar
      refine List.mem_filter.mpr ⟨hdm, ?_⟩
      rw [Bool.not_eq_true']
      have hnot : d.id ∉ subtreeIds s.depts did := fun hm =>
        hstar (subtreeIds_sound s.depts did d.id hm)
      simpa using hnot
  · intro e hem
    constructor
    · intro hmem hstar
      have hcond := (List.mem_filter.mp hmem).2
      rw [Bool.not_eq_true'] at hcond
      have hnot : e.department_id ∉ subtreeIds s.depts did := by simpa using hcond
      exact hnot (subtreeIds_complete s.depts did e.department_id hstar)
    · intro hstar
      refine List.mem_filter.mpr ⟨hem, ?_⟩
      rw [Bool.not_eq_true']
      have hnot : e.department_id ∉ subtreeIds s.depts did := fun hm =>
        hstar (subtreeIds_sound s.depts did e.department_id hm)
      simpa using hnot
  · intro e hmem hstar
    have hcond := (List.mem_filter.mp hmem).2
    rw [Bool.not_eq_true'] at hcond
    have hnot : e.department_id ∉ subtreeIds s.depts did := by simpa using hcond
    exact hnot (subtreeIds_complete s.depts did e.department_id hstar)

/-- Witness for C5: cascade-deleting the root of a two-department chain
with one employee removes everything in the subtree. -/
theorem c5_cascade_delete_witness :
    delete_department
        ⟨[⟨1, "A", none, 0⟩, ⟨2, "B", some 1, 0⟩],
         [⟨1, 2, "Bob", "Dev", none, 0⟩], 3, 2, 1⟩ 1 "cascade" none =
      .ok (cascade_store
        ⟨[⟨1, "A", none, 0⟩, ⟨2, "B", some 1, 0⟩],
         [⟨1, 2, "Bob", "Dev", none, 0⟩], 3, 2, 1⟩ 1) ∧
    get_department (cascade_store
        ⟨[⟨1, "A", none, 0⟩, ⟨2, "B", some 1, 0⟩],
         [⟨1, 2, "Bob", "Dev", none, 0⟩], 3, 2, 1⟩ 1) 1 = none ∧
    (∀ d ∈ (⟨[⟨1, "A", none, 0⟩, ⟨2, "B", some 1, 0⟩],
              [⟨1, 2, "Bob", "Dev", none, 0⟩], 3, 2, 1⟩ : Store).depts,
      d ∈ (cascade_store
        ⟨[⟨1, "A", none, 0⟩, ⟨2, "B", some 1, 0⟩],
         [⟨1, 2, "Bob", "Dev", none, 0⟩], 3, 2, 1⟩ 1).depts ↔
      ¬ ChildStar [⟨1, "A", none, 0⟩, ⟨2, "B", some 1, 0⟩] 1 d.id) ∧
    (∀ e ∈ (⟨[⟨1, "A", none, 0⟩, ⟨2, "B", some 1, 0⟩],
              [⟨1, 2, "Bob", "Dev", none, 0⟩], 3, 2, 1⟩ : Store).emps,
      e ∈ (cascade_store
        ⟨[⟨1, "A", none, 0⟩, ⟨2, "B", some 1, 0⟩],
         [⟨1, 2, "Bob", "Dev", none, 0⟩], 3, 2, 1⟩ 1).emps ↔
      ¬ ChildStar [⟨1, "A", none, 0⟩, ⟨2, "B", some 1, 0⟩] 1 e.department_id) ∧
    (∀ e ∈ (cascade_store
        ⟨[⟨1, "A", none, 0⟩, ⟨2, "B", some 1, 0⟩],
         [⟨1, 2, "Bob", "Dev", none, 0⟩], 3, 2, 1⟩ 1).emps,
      ¬ ChildStar [⟨1, "A", none, 0⟩, ⟨2, "B", some 1, 0⟩] 1 e.department_id) :=
  c5_cascade_delete
    ⟨[⟨1, "A", none, 0⟩, ⟨2, "B", some 1, 0⟩], [⟨1, 2, "Bob", "Dev", none, 0⟩], 3, 2, 1⟩
    1 ⟨1, "A", none, 0⟩ rfl (by decide)

/-! ### C8 -/

/-- Spec-side condition on the employee list attached to a node: when
employees are included it is the department's direct employees sorted by
the requested key (id as tiebreak); otherwise it is empty. -/
def EmpViewOk (s : Store) (incl : Bool) (sortBy : String) (did : Nat)
    (emps : List Emp) : Prop :=
  (incl = true →
    emps.Perm (s.emps.filter (fun e => e.department_id == did)) ∧
    (sortBy = "full_name" → emps.Sorted empRelFullName) ∧
    (sortBy ≠ "full_name" → emps.Sorted empRelCreated)) ∧
  (incl = false → emps = [])

/-- Spec-side shape of a bounded-depth tree view: at depth 0 no children;
at depth `n+1` the children are exactly the direct children, listed in
ascending `(name, id)` order, each satisfying the predicate at depth `n`;
employee lists satisfy `EmpViewOk` at every node. -/
inductive SpecTree (s : Store) (incl : Bool) (sortBy : String) :
    Nat → TreeView → Prop
  | zero {d : Dept} {emps : List Emp}
      (hemp : EmpViewOk s incl sortBy d.id emps) :
      SpecTree s incl sortBy 0 (.node d emps [])
  | succ {d : Dept} {emps : List Emp} {cts : List TreeView} {n : Nat}
      (hemp : EmpViewOk s incl sortBy d.id emps)
      (hperm : (cts.map TreeView.department).Perm
        (s.depts.filter (fun c => c.parent_id == some d.id)))
      (hsorted : (cts.map TreeView.department).Sorted deptRel)
      (hrec : ∀ t ∈ cts, SpecTree s incl sortBy n t) :
      SpecTree s incl sortBy (n + 1) (.node d emps cts)

theorem empViewOk_build (s : Store) (incl : Bool) (sortBy : String) (did : Nat) :
    EmpViewOk s incl sortBy did
      (if incl then direct_employees s sortBy did else []) := by
  constructor
  · intro h
    subst h
    rw [if_pos rfl]
    unfold direct_employees
    by_cases hs : sortBy = "full_name"
    · rw [if_pos hs]
      exact ⟨List.perm_insertionSort _ _, fun _ => List.sorted_insertionSort _ _,
        fun hne => absurd hs hne⟩
    · rw [if_neg hs]
      exact ⟨List.perm_insertionSort _ _, fun he => absurd he hs,
        fun _ => List.sorted_insertionSort _ _⟩
  · intro h
    subst h
    rw [if_neg (by simp)]

theorem build_tree_department (s : Store) (incl : Bool) (sortBy : String)
    (n : Nat) (d : Dept) :
    (build_tree s incl sortBy n d).department = d := by
  cases n <;> rfl

theorem specTree_build (s : Store) (incl : Bool) (sortBy : String) :
    ∀ (n : Nat) (d : Dept),
      SpecTree s incl sortBy n (build_tree s incl sortBy n d) := by
  intro n
  induction n with
  | zero =>
      intro d
      exact SpecTree.zero (empViewOk_build s incl sortBy d.id)
  | succ n ih =>
      intro d
      have hmap :
          (((s.depts.filter (fun c => c.parent_id == some d.id)).insertionSort
              deptRel).map (build_tree s incl sortBy n)).map TreeView.department =
            (s.depts.filter (fun c => c.parent_id == some d.id)).insertionSort
              deptRel := by
        rw [List.map_map]
        have hfun : TreeView.department ∘ build_tree s incl sortBy n = id :=
          funext fun d2 => build_tree_department s incl sortBy n d2
        rw [hfun, List.map_id]
      refine SpecTree.succ (empViewOk_build s incl sortBy d.id) ?_ ?_ ?_
      · rw [hmap]
        exact List.perm_insertionSort _ _
      · rw [hmap]
        exact List.sorted_insertionSort _ _
      · intro t ht
        obtain ⟨c, _, rfl⟩ := List.mem_map.mp ht
        exact ih c

/-- C8: for every existing department, `get_department_tree` returns the
bounded-depth tree in which, at every level, children appear in ascending
`(name, id)` order and (when requested) each node carries its direct
employees sorted by the requested key with id tiebreak; depth 0 attaches
no children and depth `n+1` expands each sorted direct child with depth
`n`. -/
theorem c8_tree_shape (s : Store) (did : Nat) (depth : Nat) (incl : Bool)
    (sortBy : String) (t : TreeView)
    (h : get_department_tree s did depth incl sortBy = .ok t) :
    SpecTree s incl sortBy depth t ∧
    (∃ dept, get_department s did = some dept ∧ t.department = dept) ∧
    (depth = 0 → t.children = []) ∧
    (∀ n, depth = n + 1 → t.children =
      ((s.depts.filter (fun c => c.parent_id == some t.department.id)).insertionSort
        deptRel).map (build_tree s incl sortBy n)) := by
  unfold get_department_tree at h
  cases hg : get_department s did with
  | none => rw [hg] at h; exact Except.noConfusion h
  | some dept =>
      rw [hg] at h
      simp only at h
      injection h with ht
      subst ht
      refine ⟨specTree_build s incl sortBy depth dept, ⟨dept, rfl, ?_⟩, ?_, ?_⟩
      · exact build_tree_department s incl sortBy depth dept
      · intro h0
        subst h0
        rfl
      · intro n hn
        subst hn
        rw [build_tree_department]
        rfl

/-- Witness for C8: the depth-1 tree of a root with two children and one
employee satisfies the shape predicate. -/
theorem c8_tree_shape_witness :
    SpecTree ⟨[⟨1, "R", none, 0⟩, ⟨2, "B", some 1, 0⟩, ⟨3, "A", some 1, 0⟩],
              [⟨1, 1, "Bob", "Dev", none, 0⟩], 4, 2, 1⟩ true "full_name" 1
      (build_tree ⟨[⟨1, "R", none, 0⟩, ⟨2, "B", some 1, 0⟩, ⟨3, "A", some 1, 0⟩],
                   [⟨1, 1, "Bob", "Dev", none, 0⟩], 4, 2, 1⟩ true "full_name" 1
        ⟨1, "R", none, 0⟩) ∧
    (∃ dept, get_department ⟨[⟨1, "R", none, 0⟩, ⟨2, "B", some 1, 0⟩,
        ⟨3, "A", some 1, 0⟩], [⟨1, 1, "Bob", "Dev", none, 0⟩], 4, 2, 1⟩ 1 =
        some dept ∧
      (build_tree ⟨[⟨1, "R", none, 0⟩, ⟨2, "B", some 1, 0⟩, ⟨3, "A", some 1, 0⟩],
                   [⟨1, 1, "Bob", "Dev", none, 0⟩], 4, 2, 1⟩ true "full_name" 1
        ⟨1, "R", none, 0⟩).department = dept) ∧
    ((1 : Nat) = 0 →
      (build_tree ⟨[⟨1, "R", none, 0⟩, ⟨2, "B", some 1, 0⟩, ⟨3, "A", some 1, 0⟩],
                   [⟨1, 1, "Bob", "Dev", none, 0⟩], 4, 2, 1⟩ true "full_name" 1
        ⟨1, "R", none, 0⟩).children = []) ∧
    (∀ n, (1 : Nat) = n + 1 →
      (build_tree ⟨[⟨1, "R", none, 0⟩, ⟨2, "B", some 1, 0⟩, ⟨3, "A", some 1, 0⟩],
                   [⟨1, 1, "Bob", "Dev", none, 0⟩], 4, 2, 1⟩ true "full_name" 1
        ⟨1, "R", none, 0⟩).children =
      (((⟨[⟨1, "R", none, 0⟩, ⟨2, "B", some 1, 0⟩, ⟨3, "A", some 1, 0⟩],
          [⟨1, 1, "Bob", "Dev", none, 0⟩], 4, 2, 1⟩ : Store).depts.filter
          (fun c => c.parent_id == some (build_tree
            ⟨[⟨1, "R", none, 0⟩, ⟨2, "B", some 1, 0⟩, ⟨3, "A", some 1, 0⟩],
             [⟨1, 1, "Bob", "Dev", none, 0⟩], 4, 2, 1⟩ true "full_name" 1
            ⟨1, "R", none, 0⟩).department.id)).insertionSort deptRel).map
        (build_tree ⟨[⟨1, "R", none, 0⟩, ⟨2, "B", some 1, 0⟩, ⟨3, "A", some 1, 0⟩],
                     [⟨1, 1, "Bob", "Dev", none, 0⟩], 4, 2, 1⟩ true "full_name" n)) :=
  c8_tree_shape
    ⟨[⟨1, "R", none, 0⟩, ⟨2, "B", some 1, 0⟩, ⟨3, "A", some 1, 0⟩],
     [⟨1, 1, "Bob", "Dev", none, 0⟩], 4, 2, 1⟩ 1 1 true "full_name"
    (build_tree ⟨[⟨1, "R", none, 0⟩, ⟨2, "B", some 1, 0⟩, ⟨3, "A", some 1, 0⟩],
                 [⟨1, 1, "Bob", "Dev", none, 0⟩], 4, 2, 1⟩ true "full_name" 1
      ⟨1, "R", none, 0⟩) rfl
